import Mathlib

/-!
Verification development for the git-activity-dashboard repository.

The repository ships a Next.js frontend (REST client wrappers, chart
components) while the sync-and-aggregation core described in the design
document lives behind the REST API.  Definitions below are of two kinds:

* shallow embeddings of frontend source code (the `apiFetch` client,
  the repository pie-chart aggregation, the dashboard query-URL builders),
  translated function-by-function from the TypeScript sources;
* models of the sync/aggregation core, each marked `Modelled from the
  spec:` in its doc comment, for the components (SyncJobManager,
  SyncReconciler, RateLimitedClient, CommitClassifier, AggregationEngine)
  whose implementation is not part of the frontend sources.
-/

namespace GitDash

/-! ## Repository pie chart (frontend/src/components/charts — RepositoryPieChart) -/

/-- One slice of the repository pie chart: the `{name, commits, color}` records
taken by `RepositoryPieChart`. -/
structure RepoEntry where
  name : String
  commits : Nat
  color : String
deriving DecidableEq, Repr

/-- The ten-color palette `CHART_COLORS` from `constants/chart-colors`. -/
def CHART_COLORS : List String :=
  ["#58a6ff", "#3fb950", "#d29922", "#f85149", "#bc8cff",
   "#39c5cf", "#db61a2", "#f0883e", "#7ee787", "#79c0ff"]

/-- Insert an entry into a list that is sorted by `commits` descending,
keeping it sorted.  The entry goes in front of the first element whose
commit count does not exceed its own, which makes the resulting sort
stable, as `Array.prototype.sort` with the comparator
`(a, b) => b.commits - a.commits` is. -/
def insertCommitsDesc (x : RepoEntry) : List RepoEntry → List RepoEntry
  | [] => [x]
  | y :: ys => if x.commits < y.commits then y :: insertCommitsDesc x ys else x :: y :: ys

/-- The sort `[...data].sort((a, b) => b.commits - a.commits)` used by
`aggregateData`: sort by commit count, descending. -/
def sortCommitsDesc : List RepoEntry → List RepoEntry
  | [] => []
  | x :: xs => insertCommitsDesc x (sortCommitsDesc xs)

/-- Total number of commits over a list of pie-chart entries. -/
def totalCommits (l : List RepoEntry) : Nat :=
  (l.map (fun r => r.commits)).sum

/-- The `aggregateData` helper of `RepositoryPieChart`: lists of at most 5
entries pass through unchanged; longer lists are collapsed to the four
entries with the most commits plus an "Other" entry carrying the sum of the
remaining commit counts. -/
def aggregateData (data : List RepoEntry) : List RepoEntry :=
  if data.length ≤ 5 then data
  else
    let sorted := sortCommitsDesc data
    let top4 := sorted.take 4
    let rest := sorted.drop 4
    let otherCommits := totalCommits rest
    top4 ++ [⟨"Other", otherCommits, CHART_COLORS.getD 4 ""⟩]

/-! ## API client (frontend/src/lib/api/client.ts) -/

/-- Parsed JSON values as the client distinguishes them: an object carrying a
`detail` field (the shape `ApiError` inspects), the `{access_token,
refresh_token}` payload of the refresh endpoint, or any other JSON value. -/
inductive Js where
  | withDetail (detail : String)
  | tokens (accessToken refreshToken : String)
  | plain (v : String)
deriving DecidableEq, Repr

/-- A fetch response: HTTP status, status text, and the result of
`res.json()` — `none` means the body is not JSON and `json()` rejects. -/
structure Resp where
  status : Nat
  statusText : String
  body : Option Js
deriving DecidableEq, Repr

/-- The `res.ok` flag of the Fetch API: status in the range 200–299. -/
def Resp.ok (r : Resp) : Bool :=
  decide (200 ≤ r.status) && decide (r.status < 300)

/-- A request issued by the client: either an API call with an optional
bearer token, or a POST to the token-refresh endpoint. -/
inductive Req where
  | api (path : String) (auth : Option String)
  | tokenRefresh (refreshToken : String)
deriving DecidableEq, Repr

/-- Whether a request is a call to the token-refresh endpoint. -/
def Req.isTokenRefresh : Req → Bool
  | .tokenRefresh _ => true
  | _ => false

/-- The two localStorage slots `git_dash_access_token` and
`git_dash_refresh_token`. -/
structure TokenStore where
  access : Option String
  refreshToken : Option String
deriving DecidableEq, Repr

/-- The message computed by the `ApiError` constructor: the body's `detail`
field when the body is an object carrying one, else "Request failed". -/
def apiErrorMessage : Js → String
  | .withDetail d => d
  | _ => "Request failed"

/-- Failures surfaced by `apiFetch`: a thrown `ApiError` (status plus the
constructor-computed message), or the rejection of `res.json()` on a
success response whose body is not JSON. -/
inductive FetchErr where
  | apiError (status : Nat) (message : String)
  | jsonRejected (status : Nat)
deriving DecidableEq, Repr

/-- The body handed to `ApiError` for a non-ok response: the parsed JSON if
parsing succeeds, else the fallback object `{detail: res.statusText}`. -/
def errorBody (r : Resp) : Js :=
  match r.body with
  | some j => j
  | none => .withDetail r.statusText

/-- The tail of `apiFetch` (lines 94–104 of client.ts): ok responses return
the parsed JSON, non-ok responses throw `ApiError(res.status, body)`. -/
def finishResponse (r : Resp) : Except FetchErr Js :=
  if r.ok then
    match r.body with
    | some j => .ok j
    | none => .error (.jsonRejected r.status)
  else
    .error (.apiError r.status (apiErrorMessage (errorBody r)))

/-- The `tryRefreshToken` helper: returns the new access token (storing both
new tokens) when a refresh token is stored and the refresh endpoint answers
ok with a token payload, and `null` otherwise.  Besides the source's result
it returns the list of requests issued and the updated token store.  The
network is an oracle mapping each request to its response. -/
def tryRefreshToken (net : Req → Resp) (st : TokenStore) :
    Option String × List Req × TokenStore :=
  match st.refreshToken with
  | none => (none, [], st)
  | some rt =>
    let r := net (.tokenRefresh rt)
    if r.ok then
      match r.body with
      | some (.tokens a b) => (some a, [.tokenRefresh rt], ⟨some a, some b⟩)
      | _ => (none, [.tokenRefresh rt], st)
    else (none, [.tokenRefresh rt], st)

/-- The `apiFetch` wrapper: issues the request with the stored bearer token;
on a 401 while a token was attached, attempts one token refresh and — only
if it yields a new token — re-issues the request once with that token;
finally returns the parsed body or throws `ApiError`.  Returns the result,
the trace of requests issued, and the resulting token store. -/
def apiFetch (net : Req → Resp) (st : TokenStore) (path : String) :
    Except FetchErr Js × List Req × TokenStore :=
  let token := st.access
  let res := net (.api path token)
  if res.status == 401 && token.isSome then
    match tryRefreshToken net st with
    | (some newTok, reqs, st') =>
      let res2 := net (.api path (some newTok))
      (finishResponse res2, .api path token :: (reqs ++ [.api path (some newTok)]), st')
    | (none, reqs, st') =>
      (finishResponse res, .api path token :: reqs, st')
  else
    (finishResponse res, [.api path token], st)

/-! ## Dashboard query URLs (frontend/src/lib/api — dashboard wrappers) -/

/-- Rendering of a `URLSearchParams` whose pairs were set in order: `k=v`
entries joined with `&` (the dashboard wrappers only pass plain date and
number strings, which URL-encode to themselves). -/
def renderQuery : List (String × String) → String
  | [] => ""
  | [(k, v)] => k ++ "=" ++ v
  | (k, v) :: rest => k ++ "=" ++ v ++ "&" ++ renderQuery rest

/-- The `` `${base}${qs ? `?${qs}` : ""}` `` pattern shared by the wrappers:
append `?` and the query string unless no parameter was set. -/
def withQuery (base : String) (q : List (String × String)) : String :=
  if q.isEmpty then base else base ++ "?" ++ renderQuery q

/-- One `if (params?.k) query.set("k", params.k)` step: the pair is added
only when the value is present and truthy (the empty string is falsy). -/
def optParam (k : String) : Option String → List (String × String)
  | none => []
  | some v => if v.isEmpty then [] else [(k, v)]

/-- One `if (params?.k) query.set("k", String(params.k))` step for a numeric
parameter: `0` is falsy and is skipped. -/
def optNatParam (k : String) : Option Nat → List (String × String)
  | none => []
  | some n => if n == 0 then [] else [(k, toString n)]

/-- URL built by `getCommitActivity(params?)`. -/
def commitActivityRequest (period startDate endDate : Option String) : String :=
  withQuery "/api/v1/dashboard/commit-activity"
    (optParam "period" period ++ optParam "start_date" startDate ++
      optParam "end_date" endDate)

/-- URL built by `getLanguageBreakdown()` — the wrapper takes no
parameters. -/
def languageBreakdownRequest : String :=
  "/api/v1/dashboard/language-breakdown"

/-- The `getLanguageBreakdown` wrapper seen with the calling convention of
the other five rollup queries: whatever date range the caller holds, the
wrapper can be handed none of it, so the built URL is constant. -/
def languageBreakdownRequestFn : Option String → Option String → String :=
  fun _ _ => languageBreakdownRequest

/-- URL built by `getRepoBreakdown(params?)`. -/
def repoBreakdownRequest (startDate endDate : Option String)
    (limit : Option Nat) : String :=
  withQuery "/api/v1/dashboard/repository-breakdown"
    (optParam "start_date" startDate ++ optParam "end_date" endDate ++
      optNatParam "limit" limit)

/-- URL built by `getHourlyHeatmap(params?)`. -/
def hourlyHeatmapRequest (startDate endDate : Option String) : String :=
  withQuery "/api/v1/dashboard/hourly-heatmap"
    (optParam "start_date" startDate ++ optParam "end_date" endDate)

/-- URL built by `getTechTrends(params?)`. -/
def techTrendsRequest (startDate endDate : Option String) : String :=
  withQuery "/api/v1/dashboard/tech-trends"
    (optParam "start_date" startDate ++ optParam "end_date" endDate)

/-- URL built by `getCategoryBreakdown(params?)`. -/
def categoryBreakdownRequest (startDate endDate : Option String) : String :=
  withQuery "/api/v1/dashboard/category-breakdown"
    (optParam "start_date" startDate ++ optParam "end_date" endDate)

/-- A query operation accepts an optional date range when supplying a
(non-empty) range changes the request it issues. -/
def respectsDateRange (f : Option String → Option String → String) : Prop :=
  ∀ s e : String, ¬s.isEmpty → ¬e.isEmpty → f (some s) (some e) ≠ f none none

/-! ## SyncJobManager (spec §4.5, §5) -/

/-- States of the SyncJob state machine: `pending → running → {completed,
failed}`. -/
inductive JobStatus where
  | pending
  | running
  | completed
  | failed
deriving DecidableEq, Repr

/-- A status is non-terminal when the job is still `pending` or `running`. -/
def JobStatus.nonTerminal : JobStatus → Bool
  | .pending => true
  | .running => true
  | _ => false

/-- A sync job record: identifier, owning account, current status. -/
structure SyncJob where
  id : Nat
  account : Nat
  status : JobStatus
deriving DecidableEq, Repr

/-- The job table plus the next fresh job identifier. -/
structure JobStore where
  jobs : List SyncJob
  nextId : Nat
deriving DecidableEq, Repr

/-- The `ConflictError` rejected at trigger time when a job for the account
is already non-terminal. -/
inductive TriggerErr where
  | conflictError
deriving DecidableEq, Repr

/-- Whether some job of the account is in a non-terminal state. -/
def hasActiveJob (st : JobStore) (a : Nat) : Bool :=
  st.jobs.any (fun j => j.account == a && j.status.nonTerminal)

/-- Number of non-terminal jobs of an account. -/
def activeCount (st : JobStore) (a : Nat) : Nat :=
  st.jobs.countP (fun j => j.account == a && j.status.nonTerminal)

/-- At-most-one-concurrent-job-per-account, the hard invariant of §4.5. -/
def atMostOneActive (st : JobStore) : Prop :=
  ∀ a : Nat, activeCount st a ≤ 1

/-- Modelled from the spec: `trigger(account, scope)` of SyncJobManager —
"fails with `ConflictError` if an existing job for the account is in
`pending` or `running` ...; otherwise creates a job in `pending`" and
returns the new job identifier. -/
def triggerSync (st : JobStore) (a : Nat) : Except TriggerErr (Nat × JobStore) :=
  if hasActiveJob st a then .error .conflictError
  else .ok (st.nextId, ⟨st.jobs ++ [⟨st.nextId, a, .pending⟩], st.nextId + 1⟩)

/-- Modelled from the spec: the `pending → running` transition, set on
execution start. -/
def startJob (st : JobStore) (jid : Nat) : JobStore :=
  ⟨st.jobs.map (fun j =>
      if j.id == jid && j.status == .pending then ⟨j.id, j.account, .running⟩ else j),
    st.nextId⟩

/-- Modelled from the spec: the `running → completed` transition. -/
def completeJob (st : JobStore) (jid : Nat) : JobStore :=
  ⟨st.jobs.map (fun j =>
      if j.id == jid && j.status == .running then ⟨j.id, j.account, .completed⟩ else j),
    st.nextId⟩

/-- Modelled from the spec: the `running → failed` transition, set on a
fatal error. -/
def failJob (st : JobStore) (jid : Nat) : JobStore :=
  ⟨st.jobs.map (fun j =>
      if j.id == jid && j.status == .running then ⟨j.id, j.account, .failed⟩ else j),
    st.nextId⟩

/-! ## SyncReconciler upserts (spec §3, §4.3) -/

/-- A stored row with a natural key, mutable fields, and immutable fields.
Commits instantiate the key with (repository, SHA), pull requests with
(repository, PR number). -/
structure Row (κ μ ι : Type) where
  key : κ
  mutData : μ
  immData : ι
deriving DecidableEq, Repr

/-- The keys currently stored. -/
def keysOf {κ μ ι : Type} (db : List (Row κ μ ι)) : List κ :=
  db.map (fun r => r.key)

/-- Whether some stored row carries the key. -/
def keyMem {κ μ ι : Type} [DecidableEq κ] (k : κ) (db : List (Row κ μ ι)) : Bool :=
  db.any (fun r => decide (r.key = k))

/-- Modelled from the spec: the idempotent upsert keyed by the natural key —
"if present, updates mutable fields ... and leaves immutable fields ...
untouched; if absent, inserts". -/
def upsert {κ μ ι : Type} [DecidableEq κ] (db : List (Row κ μ ι))
    (item : Row κ μ ι) : List (Row κ μ ι) :=
  if keyMem item.key db then
    db.map (fun r => if r.key = item.key then ⟨r.key, item.mutData, r.immData⟩ else r)
  else db ++ [item]

/-- Modelled from the spec: `reconcile` upserts every fetched item in
order. -/
def reconcile {κ μ ι : Type} [DecidableEq κ] (db : List (Row κ μ ι))
    (fetched : List (Row κ μ ι)) : List (Row κ μ ι) :=
  fetched.foldl upsert db

/-- Mutable commit fields: the nullable classification data. -/
structure CommitMut where
  technologyTags : List String
  workCategory : Option String
  classifiedAt : Option Nat
deriving DecidableEq, Repr

/-- Immutable commit fields: author, message, timestamp and diff counts. -/
structure CommitImm where
  author : String
  message : String
  committedAt : Nat
  additions : Nat
  deletions : Nat
deriving DecidableEq, Repr

/-- A Commit row, keyed by (repository id, SHA). -/
abbrev CommitRow := Row (Nat × String) CommitMut CommitImm

/-- Mutable pull-request fields: the open/closed/merged state. -/
structure PullMut where
  state : String
deriving DecidableEq, Repr

/-- Immutable pull-request fields. -/
structure PullImm where
  title : String
  openedAt : Nat
deriving DecidableEq, Repr

/-- A PullRequest row, keyed by (repository id, PR number). -/
abbrev PullRequestRow := Row (Nat × Nat) PullMut PullImm

/-! ## AggregationEngine — current streak (spec §4.4e) -/

/-- Day ordinal of a proleptic-Gregorian civil date (year ≥ 1): consecutive
calendar days map to consecutive ordinals.  Commit timestamps, stored UTC,
are converted to the account timezone before this bucketing; the model
works on the resulting local calendar days. -/
def dayOrdinal (y m d : Nat) : Nat :=
  let yAdj := if m ≤ 2 then y - 1 else y
  let era := yAdj / 400
  let yoe := yAdj % 400
  let mp := (m + 9) % 12
  let doy := (153 * mp + 2) / 5 + d - 1
  let doe := yoe * 365 + yoe / 4 - yoe / 100 + doy
  era * 146097 + doe

/-- Modelled from the spec: the "current streak" — walk backward day-by-day
from today, counting days with at least one commit, stopping at the first
day with none.  `commitDays` is the set of day ordinals that have a
commit. -/
def currentStreak (commitDays : List Nat) : Nat → Nat
  | 0 => if 0 ∈ commitDays then 1 else 0
  | t + 1 => if t + 1 ∈ commitDays then currentStreak commitDays t + 1 else 0

/-! ## AggregationEngine — language percentages (spec §4.4b) -/

/-- Commit volume attributed to one primary language. -/
structure LangCount where
  language : String
  count : Nat
deriving DecidableEq, Repr

/-- Total commit count over the language buckets. -/
def sumCounts (l : List LangCount) : Nat :=
  (l.map (fun x => x.count)).sum

/-- Integer percentage shares before remainder correction: each bucket gets
`⌊100·count/total⌋`. -/
def basePercents (l : List LangCount) : List (String × Nat) :=
  l.map (fun x => (x.language, 100 * x.count / sumCounts l))

/-- The largest bucket size. -/
def maxCount (l : List LangCount) : Nat :=
  (l.map (fun x => x.count)).foldr max 0

/-- Index of the first bucket of maximal size. -/
def largestIdx (l : List LangCount) : Nat :=
  l.findIdx (fun x => x.count == maxCount l)

/-- Add `r` to the percentage at position `i`. -/
def addAt : Nat → Nat → List (String × Nat) → List (String × Nat)
  | _, _, [] => []
  | 0, r, p :: ps => (p.1, p.2 + r) :: ps
  | i + 1, r, p :: ps => p :: addAt i r ps

/-- Sum of the percentage components. -/
def sumSnd (l : List (String × Nat)) : Nat :=
  (l.map (fun p => p.2)).sum

/-- Modelled from the spec: the language-percentage rollup — per-language
shares "normalized to sum to 100 (rounding remainder assigned to the
largest bucket to avoid sum drift)". -/
def langPercents (l : List LangCount) : List (String × Nat) :=
  addAt (largestIdx l) (100 - sumSnd (basePercents l)) (basePercents l)

/-! ## Error taxonomy and per-repository sync run (spec §4.3, §7) -/

/-- The error taxonomy of §7, as it reaches the reconciler. -/
inductive SyncError where
  | authenticationError
  | rateLimitExceeded
  | transientFetchError
  | upstreamNotFound
deriving DecidableEq, Repr

/-- Fatal errors abort the whole job (§7): an invalid credential, or quota
exhausted beyond the maximum wait. -/
def SyncError.isFatal : SyncError → Bool
  | .authenticationError => true
  | .rateLimitExceeded => true
  | _ => false

/-- Outcome of running the reconciler over the target repositories:
terminal job status, the fetched items (commit SHAs), the fully synced
repositories, and the per-repository errors recorded. -/
structure RunOutcome where
  status : JobStatus
  items : List String
  syncedRepos : List Nat
  repoErrors : List (Nat × SyncError)
deriving DecidableEq, Repr

/-- Modelled from the spec: the reconciler's failure policy — a
per-repository failure (e.g. `UpstreamNotFound`) "is recorded and skipped —
does not abort the whole job"; a fatal error (authentication, exhausted
rate limit) "aborts the entire job immediately".  `fetch r` is the result
of reconciling one repository: its fetched items or its error. -/
def runRepos (fetch : Nat → Except SyncError (List String)) :
    List Nat → RunOutcome
  | [] => ⟨.completed, [], [], []⟩
  | r :: rs =>
    match fetch r with
    | .error e =>
      if e.isFatal then ⟨.failed, [], [], [(r, e)]⟩
      else
        let o := runRepos fetch rs
        ⟨o.status, o.items, o.syncedRepos, (r, e) :: o.repoErrors⟩
    | .ok items =>
      let o := runRepos fetch rs
      ⟨o.status, items ++ o.items, r :: o.syncedRepos, o.repoErrors⟩

/-- Whether one repository's reconciliation result is non-fatal for the
job: either it succeeded or its error is of the recorded-and-skipped
kind. -/
def nonFatalResult : Except SyncError (List String) → Bool
  | .error e => !e.isFatal
  | .ok _ => true

/-- Repositories whose reconciliation succeeded. -/
def succeededRepos (fetch : Nat → Except SyncError (List String))
    (repos : List Nat) : List Nat :=
  repos.filter (fun r => (fetch r).isOk)

/-- All items of the repositories that succeeded, in repository order. -/
def fetchedItems (fetch : Nat → Except SyncError (List String))
    (repos : List Nat) : List String :=
  (repos.filterMap (fun r => (fetch r).toOption)).flatten

/-- The recorded (repository, error) pairs, in repository order. -/
def recordedErrors (fetch : Nat → Except SyncError (List String))
    (repos : List Nat) : List (Nat × SyncError) :=
  repos.filterMap (fun r =>
    match fetch r with
    | .error e => some (r, e)
    | .ok _ => none)

/-! ## CommitClassifier (spec §4.2) -/

/-- The fixed work-category enumeration, with the sentinel value. -/
inductive WorkCategory where
  | feature
  | bugfix
  | refactorWork
  | documentation
  | testing
  | chore
  | unclassified
deriving DecidableEq, Repr

/-- One response of the classification service: schema-conforming output,
or malformed/failed output. -/
inductive ClassifyResp where
  | valid (tags : List String) (category : WorkCategory)
  | malformed
deriving DecidableEq, Repr

/-- The classifier's result: technology tags plus a work category. -/
structure ClassifyResult where
  technologyTags : List String
  workCategory : WorkCategory
deriving DecidableEq, Repr

/-- The sentinel "unclassified" result. -/
def unclassifiedResult : ClassifyResult :=
  ⟨[], .unclassified⟩

/-- Modelled from the spec: `classify` — "reject and retry once on malformed
output; on two consecutive malformed/failed responses, returns a sentinel
'unclassified' result rather than failing the whole sync".  `svc n` is the
service's n-th response for this commit. -/
def classify (svc : Nat → ClassifyResp) : ClassifyResult :=
  match svc 0 with
  | .valid tags cat => ⟨tags, cat⟩
  | .malformed =>
    match svc 1 with
    | .valid tags cat => ⟨tags, cat⟩
    | .malformed => unclassifiedResult

/-- Modelled from the spec: the best-effort classification pass over the
already-persisted commits — every commit is kept and annotated with its
(possibly sentinel) classification. -/
def classifyPass (svc : String → Nat → ClassifyResp) (shas : List String) :
    List (String × ClassifyResult) :=
  shas.map (fun c => (c, classify (svc c)))

/-- Modelled from the spec: one sync job after trigger — reconciler run,
then the classification pass over the fetched commits; the classification
pass cannot fail, so the job status is the reconciler's. -/
def runFullJob (fetch : Nat → Except SyncError (List String))
    (repos : List Nat) (svc : String → Nat → ClassifyResp) :
    RunOutcome × List (String × ClassifyResult) :=
  let o := runRepos fetch repos
  match o.status with
  | .failed => (o, [])
  | _ => (o, classifyPass svc o.items)

/-! ## RateLimitedClient retries (spec §4.1) -/

/-- One attempt against the external API: an HTTP response with a status
and a page of items, or a network-level failure. -/
inductive AttemptResult where
  | response (status : Nat) (page : List String)
  | networkError
deriving DecidableEq, Repr

/-- Classification of one attempt: success, immediate authentication
failure (401/403), missing upstream resource (404), or a transient
network/5xx failure. -/
inductive AttemptClass where
  | success (page : List String)
  | auth
  | notFound
  | transient
deriving DecidableEq, Repr

/-- How `fetchPage` reads one attempt's outcome. -/
def classifyAttempt : AttemptResult → AttemptClass
  | .networkError => .transient
  | .response st page =>
    if st == 401 || st == 403 then .auth
    else if st == 404 then .notFound
    else if 500 ≤ st then .transient
    else .success page

/-- Exponential backoff before the retry following attempt `k` (0-based):
base 1s, factor 2, in milliseconds. -/
def backoffDelay (k : Nat) : Nat :=
  1000 * 2 ^ k

/-- Modelled from the spec: the retry loop of `fetchPage` — transient
failures are retried with exponential backoff up to the attempt cap, then
fail with `TransientFetchError`; 401/403 fail immediately with
`AuthenticationError`, 404 with `UpstreamNotFound`.  Returns the result,
the number of attempts made, and the backoff delays slept. -/
def retryGo (attempt : Nat → AttemptResult) :
    Nat → Nat → List Nat → Except SyncError (List String) × Nat × List Nat
  | 0, made, delays => (.error .transientFetchError, made, delays.reverse)
  | fuel + 1, made, delays =>
    match classifyAttempt (attempt made) with
    | .success page => (.ok page, made + 1, delays.reverse)
    | .auth => (.error .authenticationError, made + 1, delays.reverse)
    | .notFound => (.error .upstreamNotFound, made + 1, delays.reverse)
    | .transient =>
      match fuel with
      | 0 => (.error .transientFetchError, made + 1, delays.reverse)
      | _ + 1 => retryGo attempt fuel (made + 1) (backoffDelay made :: delays)

/-- Modelled from the spec: `fetchPage` with the cap of 5 attempts. -/
def fetchPage (attempt : Nat → AttemptResult) :
    Except SyncError (List String) × Nat × List Nat :=
  retryGo attempt 5 0 []

/-! ## Concrete fixtures used to instantiate the theorems -/

/-- A network oracle replaying the refresh scenario of the client tests. -/
def clientNetExample : Req → Resp := fun q =>
  if q = .api "/api/v1/secure" (some "expired-token") then
    ⟨401, "Unauthorized", some (.withDetail "Token expired")⟩
  else if q = .tokenRefresh "valid-refresh" then
    ⟨200, "OK", some (.tokens "new-token" "new-refresh")⟩
  else if q = .api "/api/v1/secure" (some "new-token") then
    ⟨200, "OK", some (.plain "refreshed")⟩
  else ⟨500, "Internal Server Error", none⟩

/-- Token store holding an expired access token and a valid refresh
token. -/
def clientStoreExample : TokenStore :=
  ⟨some "expired-token", some "valid-refresh"⟩

/-- An upstream that always answers 401. -/
def attemptAuthExample : Nat → AttemptResult := fun _ => .response 401 []

/-- An upstream whose connection always fails. -/
def attemptTransientExample : Nat → AttemptResult := fun _ => .networkError

/-- Three repositories where repository 2 vanished upstream. -/
def fetchExampleC6 : Nat → Except SyncError (List String) := fun r =>
  if r = 1 then .ok ["a1", "a2"]
  else if r = 2 then .error .upstreamNotFound
  else .ok ["c1"]

/-- One repository with a single commit. -/
def fetchExampleC8 : Nat → Except SyncError (List String) := fun _ => .ok ["deadbeef"]

/-- A classification service that only returns malformed output. -/
def svcExampleC8 : String → Nat → ClassifyResp := fun _ _ => .malformed

/-- Six pie-chart entries, more than the 5-slice display limit. -/
def repoEntriesExample : List RepoEntry :=
  [⟨"r1", 10, ""⟩, ⟨"r2", 3, ""⟩, ⟨"r3", 7, ""⟩, ⟨"r4", 1, ""⟩,
   ⟨"r5", 5, ""⟩, ⟨"r6", 2, ""⟩]

/-- Two language buckets whose floored shares sum to 99. -/
def langCountsExample : List LangCount :=
  [⟨"TypeScript", 2⟩, ⟨"Python", 1⟩]

/-- Commit days 2026-02-08, 2026-02-09 and 2026-02-11 of the spec's streak
example. -/
def streakDaysExample : List Nat :=
  [dayOrdinal 2026 2 8, dayOrdinal 2026 2 9, dayOrdinal 2026 2 11]

/-- A job table whose only job for account 7 is terminal. -/
def jobStoreExample : JobStore :=
  ⟨[⟨0, 7, .completed⟩], 1⟩

/-- One stored commit row for repository 1. -/
def commitDbExample : List CommitRow :=
  [⟨(1, "abc"), ⟨[], none, none⟩, ⟨"alice", "init", 5, 1, 2⟩⟩]

/-- A fetched page: the stored commit again (now classified upstream) plus
a new one. -/
def fetchedCommitsExample : List CommitRow :=
  [⟨(1, "abc"), ⟨["lean"], some "feature", some 9⟩, ⟨"alice", "init", 5, 1, 2⟩⟩,
   ⟨(1, "def0"), ⟨[], none, none⟩, ⟨"bob", "fix", 6, 3, 4⟩⟩]

end GitDash

namespace GitDash

theorem insertCommitsDesc_perm (x : RepoEntry) (l : List RepoEntry) :
    List.Perm (insertCommitsDesc x l) (x :: l) := by
  induction l with
  | nil => simp [insertCommitsDesc]
  | cons y ys ih =>
    simp only [insertCommitsDesc]
    split
    · exact (ih.cons y).trans (List.Perm.swap x y ys)
    · exact List.Perm.refl _

theorem sortCommitsDesc_perm (l : List RepoEntry) :
    List.Perm (sortCommitsDesc l) l := by
  induction l with
  | nil => simp [sortCommitsDesc]
  | cons x xs ih =>
    exact (insertCommitsDesc_perm x (sortCommitsDesc xs)).trans (ih.cons x)

theorem insertCommitsDesc_sorted (x : RepoEntry) (l : List RepoEntry)
    (h : l.Pairwise (fun p q => q.commits ≤ p.commits)) :
    (insertCommitsDesc x l).Pairwise (fun p q => q.commits ≤ p.commits) := by
  induction l with
  | nil => simp [insertCommitsDesc]
  | cons y ys ih =>
    rw [List.pairwise_cons] at h
    obtain ⟨hy, hys⟩ := h
    simp only [insertCommitsDesc]
    split
    · refine List.Pairwise.cons ?_ (ih hys)
      intro z hz
      have hz' : z ∈ x :: ys := (insertCommitsDesc_perm x ys).mem_iff.mp hz
      rcases List.mem_cons.mp hz' with hz' | hz'
      · subst hz'; omega
      · exact hy _ hz'
    · refine List.Pairwise.cons ?_ (List.pairwise_cons.mpr ⟨hy, hys⟩)
      intro z hz
      rcases List.mem_cons.mp hz with hz' | hz'
      · subst hz'; omega
      · exact le_trans (hy _ hz') (by omega)

theorem sortCommitsDesc_sorted (l : List RepoEntry) :
    (sortCommitsDesc l).Pairwise (fun p q => q.commits ≤ p.commits) := by
  induction l with
  | nil => simp [sortCommitsDesc]
  | cons x xs ih => exact insertCommitsDesc_sorted x _ ih

theorem totalCommits_perm {l₁ l₂ : List RepoEntry}
    (h : List.Perm l₁ l₂) : totalCommits l₁ = totalCommits l₂ := by
  unfold totalCommits
  exact (h.map (fun r => r.commits)).sum_eq

theorem totalCommits_append (l₁ l₂ : List RepoEntry) :
    totalCommits (l₁ ++ l₂) = totalCommits l₁ + totalCommits l₂ := by
  simp [totalCommits]

/-- C10: `aggregateData` preserves the total commit count for every input
list: a list of at most 5 entries is returned unchanged; a longer list is
collapsed to exactly 5 entries — the 4 repositories with the highest commit
counts plus an "Other" entry whose commit count is the sum of the remaining
repositories' counts — so the sum of commits over the output always equals
the sum over the input. -/
theorem aggregateData_spec (data : List RepoEntry) :
    totalCommits (aggregateData data) = totalCommits data ∧
    (data.length ≤ 5 → aggregateData data = data) ∧
    (5 < data.length →
      (aggregateData data).length = 5 ∧
      aggregateData data =
        (sortCommitsDesc data).take 4 ++
          [⟨"Other", totalCommits ((sortCommitsDesc data).drop 4),
            CHART_COLORS.getD 4 ""⟩] ∧
      ∀ a ∈ (sortCommitsDesc data).take 4,
        ∀ b ∈ (sortCommitsDesc data).drop 4, b.commits ≤ a.commits) := by
  have hperm := sortCommitsDesc_perm data
  have hsplit := List.take_append_drop 4 (sortCommitsDesc data)
  refine ⟨?_, ?_, ?_⟩
  · unfold aggregateData
    split
    · rfl
    · rw [totalCommits_append]
      have h1 : totalCommits [(⟨"Other",
          totalCommits ((sortCommitsDesc data).drop 4),
          CHART_COLORS.getD 4 ""⟩ : RepoEntry)] =
          totalCommits ((sortCommitsDesc data).drop 4) := by
        simp [totalCommits]
      rw [h1, ← totalCommits_append, hsplit]
      exact totalCommits_perm hperm
  · intro h
    unfold aggregateData
    simp [h]
  · intro h
    have hif : ¬data.length ≤ 5 := by omega
    have hlen : (sortCommitsDesc data).length = data.length := hperm.length_eq
    refine ⟨?_, ?_, ?_⟩
    · unfold aggregateData
      rw [if_neg hif]
      simp only [List.length_append, List.length_take, List.length_cons,
        List.length_nil, hlen]
      omega
    · unfold aggregateData
      rw [if_neg hif]
    · have hsorted := sortCommitsDesc_sorted data
      rw [← hsplit] at hsorted
      exact (List.pairwise_append.mp hsorted).2.2

/-- Witness for C10 at a concrete 6-entry list. -/
theorem aggregateData_spec_witness :
    5 < repoEntriesExample.length ∧
    (aggregateData repoEntriesExample).length = 5 ∧
    totalCommits (aggregateData repoEntriesExample) = totalCommits repoEntriesExample ∧
    aggregateData repoEntriesExample =
      [⟨"r1", 10, ""⟩, ⟨"r3", 7, ""⟩, ⟨"r5", 5, ""⟩, ⟨"r2", 3, ""⟩,
       ⟨"Other", 3, "#bc8cff"⟩] := by
  have h := aggregateData_spec repoEntriesExample
  exact ⟨by decide, (h.2.2 (by decide)).1, h.1, by decide⟩

theorem append_query_ne (base q : String) : base ++ "?" ++ q ≠ base := by
  intro h
  have h2 := congrArg String.length h
  have h3 : ("?" : String).length = 1 := rfl
  simp only [String.length_append, h3] at h2
  omega

/-- C3 counterexample: the language-breakdown query accepts no date range —
its wrapper takes no parameters, so the request it issues for the range
2026-01-01..2026-01-31 is the same request issued with no range at all,
refuting that every one of the six rollup queries accepts an optional date
range. -/
theorem languageBreakdown_dateRange_counterexample :
    languageBreakdownRequestFn (some "2026-01-01") (some "2026-01-31") =
      languageBreakdownRequestFn none none ∧
    ¬respectsDateRange languageBreakdownRequestFn := by
  constructor
  · rfl
  · intro h
    exact h "2026-01-01" "2026-01-31" (by decide) (by decide) rfl

/-- C3 amended: of the six read-only rollup queries, five — commit
activity, repository breakdown, hourly heatmap, tech trends, category
breakdown — accept an optional date range, putting `start_date`/`end_date`
into the query string and issuing the bare endpoint URL when the range is
absent; the language-breakdown query takes no date range and always issues
the same URL. -/
theorem rollupQueries_dateRange_amended :
    (∀ s e : String, ¬s.isEmpty → ¬e.isEmpty →
      commitActivityRequest none (some s) (some e) =
        "/api/v1/dashboard/commit-activity" ++ "?" ++
          renderQuery [("start_date", s), ("end_date", e)] ∧
      repoBreakdownRequest (some s) (some e) none =
        "/api/v1/dashboard/repository-breakdown" ++ "?" ++
          renderQuery [("start_date", s), ("end_date", e)] ∧
      hourlyHeatmapRequest (some s) (some e) =
        "/api/v1/dashboard/hourly-heatmap" ++ "?" ++
          renderQuery [("start_date", s), ("end_date", e)] ∧
      techTrendsRequest (some s) (some e) =
        "/api/v1/dashboard/tech-trends" ++ "?" ++
          renderQuery [("start_date", s), ("end_date", e)] ∧
      categoryBreakdownRequest (some s) (some e) =
        "/api/v1/dashboard/category-breakdown" ++ "?" ++
          renderQuery [("start_date", s), ("end_date", e)]) ∧
    commitActivityRequest none none none = "/api/v1/dashboard/commit-activity" ∧
    repoBreakdownRequest none none none = "/api/v1/dashboard/repository-breakdown" ∧
    hourlyHeatmapRequest none none = "/api/v1/dashboard/hourly-heatmap" ∧
    techTrendsRequest none none = "/api/v1/dashboard/tech-trends" ∧
    categoryBreakdownRequest none none = "/api/v1/dashboard/category-breakdown" ∧
    respectsDateRange (fun s e => commitActivityRequest none s e) ∧
    respectsDateRange (fun s e => repoBreakdownRequest s e none) ∧
    respectsDateRange hourlyHeatmapRequest ∧
    respectsDateRange techTrendsRequest ∧
    respectsDateRange categoryBreakdownRequest ∧
    ∀ s e : Option String, languageBreakdownRequestFn s e = languageBreakdownRequest := by
  have hq : ∀ s e : String, ¬s.isEmpty → ¬e.isEmpty →
      ∀ base : String,
        withQuery base (optParam "start_date" (some s) ++ optParam "end_date" (some e)) =
          base ++ "?" ++ renderQuery [("start_date", s), ("end_date", e)] := by
    intro s e hs he base
    have hs' : s.isEmpty = false := Bool.not_eq_true _ ▸ Bool.of_not_eq_true hs
    have he' : e.isEmpty = false := Bool.not_eq_true _ ▸ Bool.of_not_eq_true he
    simp [withQuery, optParam, hs', he']
  refine ⟨?_, ?_, ?_, ?_, ?_, ?_, ?_, ?_, ?_, ?_, ?_, fun s e => rfl⟩
  · intro s e hs he
    refine ⟨?_, ?_, ?_, ?_, ?_⟩ <;>
      simpa [commitActivityRequest, repoBreakdownRequest, hourlyHeatmapRequest,
        techTrendsRequest, categoryBreakdownRequest, optParam, optNatParam]
        using hq s e hs he _
  · rfl
  · rfl
  · rfl
  · rfl
  · rfl
  · intro s e hs he
    show commitActivityRequest none (some s) (some e) ≠
      commitActivityRequest none none none
    rw [show commitActivityRequest none (some s) (some e) =
      withQuery "/api/v1/dashboard/commit-activity"
        (optParam "start_date" (some s) ++ optParam "end_date" (some e)) from by
        simp [commitActivityRequest, optParam], hq s e hs he _]
    exact append_query_ne _ _
  · intro s e hs he
    show repoBreakdownRequest (some s) (some e) none ≠
      repoBreakdownRequest none none none
    rw [show repoBreakdownRequest (some s) (some e) none =
      withQuery "/api/v1/dashboard/repository-breakdown"
        (optParam "start_date" (some s) ++ optParam "end_date" (some e)) from by
        simp [repoBreakdownRequest, optParam, optNatParam], hq s e hs he _]
    exact append_query_ne _ _
  · intro s e hs he
    rw [show hourlyHeatmapRequest (some s) (some e) =
      withQuery "/api/v1/dashboard/hourly-heatmap"
        (optParam "start_date" (some s) ++ optParam "end_date" (some e)) from rfl,
      hq s e hs he _]
    exact append_query_ne _ _
  · intro s e hs he
    rw [show techTrendsRequest (some s) (some e) =
      withQuery "/api/v1/dashboard/tech-trends"
        (optParam "start_date" (some s) ++ optParam "end_date" (some e)) from rfl,
      hq s e hs he _]
    exact append_query_ne _ _
  · intro s e hs he
    rw [show categoryBreakdownRequest (some s) (some e) =
      withQuery "/api/v1/dashboard/category-breakdown"
        (optParam "start_date" (some s) ++ optParam "end_date" (some e)) from rfl,
      hq s e hs he _]
    exact append_query_ne _ _

/-- Witness for C3's amended statement at the concrete range
2026-01-01..2026-01-31. -/
theorem rollupQueries_dateRange_witness :
    hourlyHeatmapRequest (some "2026-01-01") (some "2026-01-31") =
      "/api/v1/dashboard/hourly-heatmap?start_date=2026-01-01&end_date=2026-01-31" ∧
    hourlyHeatmapRequest none none = "/api/v1/dashboard/hourly-heatmap" := by
  have h := rollupQueries_dateRange_amended
  have h1 := (h.1 "2026-01-01" "2026-01-31" (by decide) (by decide)).2.2.1
  exact ⟨by rw [h1]; decide, h.2.2.2.1⟩

theorem tryRefresh_trace_countP (net : Req → Resp) (st : TokenStore) :
    (tryRefreshToken net st).2.1.countP Req.isTokenRefresh ≤ 1 := by
  cases hrt : st.refreshToken with
  | none => simp [tryRefreshToken, hrt]
  | some rt =>
    simp only [tryRefreshToken, hrt]
    split
    · split <;> simp [Req.isTokenRefresh]
    · simp [Req.isTokenRefresh]

/-- C9: while an access token is stored, a first response of status 401
makes `apiFetch` attempt at most one token refresh; only when the refresh
succeeds is the original request re-issued, exactly once, with the new
token; when no refresh token is stored, or the refresh fails, the thrown
`ApiError` carries the original 401 status; and any non-ok response whose
body is not JSON produces an `ApiError` message equal to the response's
`statusText`. -/
theorem apiFetch_auth_retry_spec (net : Req → Resp) (st : TokenStore)
    (path : String) (t : String)
    (hacc : st.access = some t)
    (h401 : (net (.api path (some t))).status = 401) :
    (apiFetch net st path).2.1.countP Req.isTokenRefresh ≤ 1 ∧
    (st.refreshToken = none →
      apiFetch net st path =
        (.error (.apiError 401 (apiErrorMessage (errorBody (net (.api path (some t)))))),
          [.api path (some t)], st)) ∧
    (∀ rt, st.refreshToken = some rt →
      ((net (.tokenRefresh rt)).ok = false ∨
        ∀ a b, (net (.tokenRefresh rt)).body ≠ some (.tokens a b)) →
      apiFetch net st path =
        (.error (.apiError 401 (apiErrorMessage (errorBody (net (.api path (some t)))))),
          [.api path (some t), .tokenRefresh rt], st)) ∧
    (∀ rt a b, st.refreshToken = some rt →
      (net (.tokenRefresh rt)).ok = true →
      (net (.tokenRefresh rt)).body = some (.tokens a b) →
      apiFetch net st path =
        (finishResponse (net (.api path (some a))),
          [.api path (some t), .tokenRefresh rt, .api path (some a)],
          ⟨some a, some b⟩)) ∧
    (∀ r : Resp, r.ok = false → r.body = none →
      finishResponse r = .error (.apiError r.status r.statusText)) := by
  have hok : (net (.api path (some t))).ok = false := by
    simp [Resp.ok, h401]
  have hfin : finishResponse (net (.api path (some t))) =
      .error (.apiError 401 (apiErrorMessage (errorBody (net (.api path (some t)))))) := by
    simp [finishResponse, hok, h401]
  refine ⟨?_, ?_, ?_, ?_, ?_⟩
  · rcases htr : tryRefreshToken net st with ⟨o, reqs, st'⟩
    have hc := tryRefresh_trace_countP net st
    rw [htr] at hc
    simp only at hc
    cases o with
    | none =>
      simp only [apiFetch, htr]
      split
      · simpa [List.countP_cons, Req.isTokenRefresh] using hc
      · simp [List.countP_cons, Req.isTokenRefresh]
    | some a =>
      simp only [apiFetch, htr]
      split
      · simpa [List.countP_cons, List.countP_append, Req.isTokenRefresh] using hc
      · simp [List.countP_cons, Req.isTokenRefresh]
  · intro hrt
    have htr : tryRefreshToken net st = (none, [], st) := by
      simp [tryRefreshToken, hrt]
    simp [apiFetch, hacc, h401, htr, hfin]
  · intro rt hrt hfail
    have htr : tryRefreshToken net st = (none, [.tokenRefresh rt], st) := by
      rcases hfail with hnok | hbody
      · simp [tryRefreshToken, hrt, hnok]
      · simp only [tryRefreshToken, hrt]
        split
        · cases hb : (net (.tokenRefresh rt)).body with
          | none => simp [hb]
          | some j =>
            cases j with
            | withDetail d => simp [hb]
            | tokens a b => exact absurd hb (hbody a b)
            | plain v => simp [hb]
        · rfl
    simp [apiFetch, hacc, h401, htr, hfin]
  · intro rt a b hrt hrok hbody
    have htr : tryRefreshToken net st =
        (some a, [.tokenRefresh rt], ⟨some a, some b⟩) := by
      simp [tryRefreshToken, hrt, hrok, hbody]
    simp [apiFetch, hacc, h401, htr]
  · intro r hrok hrbody
    simp [finishResponse, hrok, errorBody, hrbody, apiErrorMessage]

/-- Witness for C9: the token-refresh scenario of the client test suite,
replayed against `clientNetExample`. -/
theorem apiFetch_auth_retry_witness :
    (apiFetch clientNetExample clientStoreExample "/api/v1/secure").2.1 =
      [.api "/api/v1/secure" (some "expired-token"),
        .tokenRefresh "valid-refresh",
        .api "/api/v1/secure" (some "new-token")] ∧
    (apiFetch clientNetExample clientStoreExample "/api/v1/secure").1 =
      .ok (.plain "refreshed") ∧
    (apiFetch clientNetExample clientStoreExample "/api/v1/secure").2.2 =
      ⟨some "new-token", some "new-refresh"⟩ := by
  have h := (apiFetch_auth_retry_spec clientNetExample clientStoreExample
      "/api/v1/secure" "expired-token" rfl (by decide)).2.2.2.1
      "valid-refresh" "new-token" "new-refresh" rfl (by decide) (by decide)
  refine ⟨by rw [h], by rw [h]; rfl, by rw [h]⟩

theorem nonTerminal_iff (s : JobStatus) :
    s.nonTerminal = true ↔ (s = .pending ∨ s = .running) := by
  cases s <;> simp [JobStatus.nonTerminal]

theorem hasActiveJob_iff (st : JobStore) (a : Nat) :
    hasActiveJob st a = true ↔
      ∃ j ∈ st.jobs, j.account = a ∧ (j.status = .pending ∨ j.status = .running) := by
  simp [hasActiveJob, List.any_eq_true, Bool.and_eq_true, beq_iff_eq,
    nonTerminal_iff, and_assoc]

theorem activeCount_of_not_active (st : JobStore) (a : Nat)
    (h : hasActiveJob st a = false) : activeCount st a = 0 := by
  unfold activeCount
  rw [List.countP_eq_zero]
  intro j hj
  have hall := List.any_eq_false.mp h j hj
  simpa using hall

theorem activeCount_startJob (st : JobStore) (jid a : Nat) :
    activeCount (startJob st jid) a = activeCount st a := by
  unfold activeCount startJob
  rw [List.countP_map]
  apply List.countP_congr
  intro j hj
  by_cases h1 : j.id = jid
  · by_cases h2 : j.status = JobStatus.pending
    · simp [Function.comp, h1, h2, JobStatus.nonTerminal]
    · simp [Function.comp, h1, h2]
  · simp [Function.comp, h1]

theorem activeCount_completeJob (st : JobStore) (jid a : Nat) :
    activeCount (completeJob st jid) a ≤ activeCount st a := by
  unfold activeCount completeJob
  rw [List.countP_map]
  apply List.countP_mono_left
  intro j hj
  by_cases h : (j.id == jid && j.status == JobStatus.running) = true
  · simp [Function.comp, h, JobStatus.nonTerminal]
  · simp [Function.comp, h]

theorem activeCount_failJob (st : JobStore) (jid a : Nat) :
    activeCount (failJob st jid) a ≤ activeCount st a := by
  unfold activeCount failJob
  rw [List.countP_map]
  apply List.countP_mono_left
  intro j hj
  by_cases h : (j.id == jid && j.status == JobStatus.running) = true
  · simp [Function.comp, h, JobStatus.nonTerminal]
  · simp [Function.comp, h]

/-- C1: `triggerSync` fails with `ConflictError` exactly when some job of
the account is still `pending` or `running`; otherwise it creates a new
`pending` job and returns its identifier; and the at-most-one-non-terminal-
job-per-account invariant is preserved by triggering and by every status
transition of the state machine. -/
theorem triggerSync_spec (st : JobStore) (a : Nat) :
    (triggerSync st a = .error .conflictError ↔
      ∃ j ∈ st.jobs, j.account = a ∧ (j.status = .pending ∨ j.status = .running)) ∧
    ((¬∃ j ∈ st.jobs, j.account = a ∧ (j.status = .pending ∨ j.status = .running)) →
      triggerSync st a =
        .ok (st.nextId, ⟨st.jobs ++ [⟨st.nextId, a, .pending⟩], st.nextId + 1⟩)) ∧
    (atMostOneActive st →
      (∀ jid st', triggerSync st a = .ok (jid, st') → atMostOneActive st') ∧
      ∀ jid, atMostOneActive (startJob st jid) ∧
        atMostOneActive (completeJob st jid) ∧
        atMostOneActive (failJob st jid)) := by
  refine ⟨?_, ?_, ?_⟩
  · rw [← hasActiveJob_iff]
    unfold triggerSync
    constructor
    · intro h
      by_contra hb
      rw [Bool.not_eq_true] at hb
      rw [hb] at h
      simp at h
    · intro h
      rw [h]
      simp
  · intro h
    rw [← hasActiveJob_iff, Bool.not_eq_true] at h
    unfold triggerSync
    rw [h]
    simp
  · intro hinv
    constructor
    · intro jid st' hok
      unfold triggerSync at hok
      by_cases hact : hasActiveJob st a = true
      · rw [hact] at hok
        simp at hok
      · rw [Bool.not_eq_true] at hact
        rw [hact] at hok
        simp at hok
        obtain ⟨h1, h2⟩ := hok
        subst h2
        intro a'
        unfold activeCount
        rw [List.countP_append]
        by_cases ha : a' = a
        · subst ha
          have h0 := activeCount_of_not_active st a' hact
          unfold activeCount at h0
          rw [h0]
          simp [JobStatus.nonTerminal]
        · have hne : a ≠ a' := fun h => ha h.symm
          have hone : (List.countP
              (fun j => j.account == a' && j.status.nonTerminal)
              [(⟨st.nextId, a, .pending⟩ : SyncJob)]) = 0 := by
            simp [List.countP_cons, hne]
          rw [hone]
          have := hinv a'
          unfold activeCount at this
          omega
    · intro jid
      refine ⟨?_, ?_, ?_⟩
      · intro a'
        rw [activeCount_startJob]
        exact hinv a'
      · intro a'
        exact le_trans (activeCount_completeJob st jid a') (hinv a')
      · intro a'
        exact le_trans (activeCount_failJob st jid a') (hinv a')

/-- Witness for C1: triggering account 7 on a store whose only job for it
is terminal succeeds with a fresh pending job; the invariant holds after. -/
theorem triggerSync_witness :
    triggerSync jobStoreExample 7 =
      .ok (1, ⟨[⟨0, 7, .completed⟩, ⟨1, 7, .pending⟩], 2⟩) ∧
    atMostOneActive
      (⟨[⟨0, 7, .completed⟩, ⟨1, 7, .pending⟩], 2⟩ : JobStore) := by
  have h := triggerSync_spec jobStoreExample 7
  have hfree : ¬∃ j ∈ jobStoreExample.jobs,
      j.account = 7 ∧ (j.status = .pending ∨ j.status = .running) := by
    simp [jobStoreExample]
  have hok := h.2.1 hfree
  refine ⟨hok, ?_⟩
  have hinv : atMostOneActive jobStoreExample := by
    intro a
    have : activeCount jobStoreExample a = 0 := by
      simp [activeCount, jobStoreExample, JobStatus.nonTerminal]
    omega
  exact (h.2.2 hinv).1 1 _ hok

theorem keysOf_upsert_of_mem {κ μ ι : Type} [DecidableEq κ]
    (db : List (Row κ μ ι)) (item : Row κ μ ι)
    (h : keyMem item.key db = true) : keysOf (upsert db item) = keysOf db := by
  unfold upsert
  rw [if_pos h]
  unfold keysOf
  rw [List.map_map]
  apply List.map_congr_left
  intro r _
  by_cases h' : r.key = item.key <;> simp [Function.comp, h']

theorem upsert_length_of_mem {κ μ ι : Type} [DecidableEq κ]
    (db : List (Row κ μ ι)) (item : Row κ μ ι)
    (h : keyMem item.key db = true) : (upsert db item).length = db.length := by
  unfold upsert
  rw [if_pos h]
  exact List.length_map _ _

theorem upsert_of_not_mem {κ μ ι : Type} [DecidableEq κ]
    (db : List (Row κ μ ι)) (item : Row κ μ ι)
    (h : keyMem item.key db = false) : upsert db item = db ++ [item] := by
  unfold upsert
  rw [if_neg (by simp [h])]

theorem keyMem_iff {κ μ ι : Type} [DecidableEq κ]
    (k : κ) (db : List (Row κ μ ι)) : keyMem k db = true ↔ k ∈ keysOf db := by
  unfold keyMem keysOf
  rw [List.any_eq_true]
  constructor
  · rintro ⟨r, hr, hrk⟩
    exact List.mem_map.mpr ⟨r, hr, of_decide_eq_true hrk⟩
  · intro hk
    rcases List.mem_map.mp hk with ⟨r, hr, hrk⟩
    exact ⟨r, hr, decide_eq_true hrk⟩

theorem keyMem_upsert_mono {κ μ ι : Type} [DecidableEq κ]
    (db : List (Row κ μ ι)) (item : Row κ μ ι) (k : κ)
    (h : keyMem k db = true) : keyMem k (upsert db item) = true := by
  by_cases hm : keyMem item.key db = true
  · rw [keyMem_iff, keysOf_upsert_of_mem db item hm, ← keyMem_iff]
    exact h
  · rw [upsert_of_not_mem db item (by simpa using hm)]
    unfold keyMem at h ⊢
    rw [List.any_append, h]
    rfl

theorem keyMem_upsert_self {κ μ ι : Type} [DecidableEq κ]
    (db : List (Row κ μ ι)) (item : Row κ μ ι) :
    keyMem item.key (upsert db item) = true := by
  by_cases hm : keyMem item.key db = true
  · exact keyMem_upsert_mono db item _ hm
  · rw [upsert_of_not_mem db item (by simpa using hm)]
    unfold keyMem
    rw [List.any_append]
    simp

theorem reconcile_cons {κ μ ι : Type} [DecidableEq κ]
    (db : List (Row κ μ ι)) (i : Row κ μ ι) (F : List (Row κ μ ι)) :
    reconcile db (i :: F) = reconcile (upsert db i) F := rfl

theorem keyMem_reconcile_mono {κ μ ι : Type} [DecidableEq κ]
    (F : List (Row κ μ ι)) (db : List (Row κ μ ι)) (k : κ)
    (h : keyMem k db = true) : keyMem k (reconcile db F) = true := by
  induction F generalizing db with
  | nil => exact h
  | cons i F ih =>
    rw [reconcile_cons]
    exact ih _ (keyMem_upsert_mono db i k h)

theorem keyMem_reconcile_of_mem {κ μ ι : Type} [DecidableEq κ]
    (F : List (Row κ μ ι)) (db : List (Row κ μ ι)) :
    ∀ i ∈ F, keyMem i.key (reconcile db F) = true := by
  induction F generalizing db with
  | nil => intro i hi; cases hi
  | cons j F ih =>
    intro i hi
    rw [reconcile_cons]
    rcases List.mem_cons.mp hi with hi | hi
    · subst hi
      exact keyMem_reconcile_mono F _ _ (keyMem_upsert_self db i)
    · exact ih _ i hi

theorem reconcile_length_of_all_mem {κ μ ι : Type} [DecidableEq κ]
    (F : List (Row κ μ ι)) (db : List (Row κ μ ι))
    (h : ∀ i ∈ F, keyMem i.key db = true) :
    (reconcile db F).length = db.length := by
  induction F generalizing db with
  | nil => rfl
  | cons i F ih =>
    rw [reconcile_cons]
    have hm : keyMem i.key db = true := h i (List.mem_cons_self i F)
    rw [ih (upsert db i) ?_, upsert_length_of_mem db i hm]
    intro j hj
    exact keyMem_upsert_mono db i _ (h j (List.mem_cons_of_mem i hj))

theorem nodup_upsert {κ μ ι : Type} [DecidableEq κ]
    (db : List (Row κ μ ι)) (item : Row κ μ ι)
    (h : (keysOf db).Nodup) : (keysOf (upsert db item)).Nodup := by
  by_cases hm : keyMem item.key db = true
  · rw [keysOf_upsert_of_mem db item hm]
    exact h
  · rw [upsert_of_not_mem db item (by simpa using hm)]
    have hk : keysOf (db ++ [item]) = keysOf db ++ [item.key] := by
      simp [keysOf]
    rw [hk]
    rw [List.nodup_append]
    refine ⟨h, List.nodup_singleton _, ?_⟩
    intro x hx hx'
    rcases List.mem_singleton.mp hx' with rfl
    exact hm ((keyMem_iff _ _).mpr hx)

theorem nodup_reconcile {κ μ ι : Type} [DecidableEq κ]
    (F : List (Row κ μ ι)) (db : List (Row κ μ ι))
    (h : (keysOf db).Nodup) : (keysOf (reconcile db F)).Nodup := by
  induction F generalizing db with
  | nil => exact h
  | cons i F ih =>
    rw [reconcile_cons]
    exact ih _ (nodup_upsert db i h)

theorem upsert_mem_spec {κ μ ι : Type} [DecidableEq κ]
    (db : List (Row κ μ ι)) (item : Row κ μ ι)
    (hm : keyMem item.key db = true) :
    ∀ r ∈ db,
      (r.key = item.key → (⟨r.key, item.mutData, r.immData⟩ : Row κ μ ι) ∈ upsert db item) ∧
      (r.key ≠ item.key → r ∈ upsert db item) := by
  intro r hr
  unfold upsert
  rw [if_pos hm]
  constructor
  · intro hk
    have hmem := List.mem_map_of_mem
      (fun r => if r.key = item.key then (⟨r.key, item.mutData, r.immData⟩ : Row κ μ ι) else r) hr
    simpa [hk] using hmem
  · intro hk
    have hmem := List.mem_map_of_mem
      (fun r => if r.key = item.key then (⟨r.key, item.mutData, r.immData⟩ : Row κ μ ι) else r) hr
    simpa [hk] using hmem

/-- C2: `reconcile` is idempotent — a second run with the same upstream
data leaves the row count unchanged and creates no duplicate keys, for
Commit rows keyed by (repository, SHA) and PullRequest rows keyed by
(repository, PR number) alike; a single upsert updates the mutable fields
and leaves the immutable fields of an existing row untouched when the key
is present, and appends the row exactly when the key is absent. -/
theorem reconcile_idempotent_spec :
    (∀ db F : List CommitRow,
      (reconcile (reconcile db F) F).length = (reconcile db F).length) ∧
    (∀ db F : List CommitRow,
      (keysOf db).Nodup → (keysOf (reconcile db F)).Nodup) ∧
    (∀ db F : List PullRequestRow,
      (reconcile (reconcile db F) F).length = (reconcile db F).length) ∧
    (∀ db F : List PullRequestRow,
      (keysOf db).Nodup → (keysOf (reconcile db F)).Nodup) ∧
    (∀ (db : List CommitRow) (item : CommitRow),
      (keyMem item.key db = true →
        (upsert db item).length = db.length ∧
        ∀ r ∈ db,
          (r.key = item.key →
            (⟨r.key, item.mutData, r.immData⟩ : CommitRow) ∈ upsert db item) ∧
          (r.key ≠ item.key → r ∈ upsert db item)) ∧
      (keyMem item.key db = false → upsert db item = db ++ [item])) := by
  refine ⟨?_, ?_, ?_, ?_, ?_⟩
  · intro db F
    exact reconcile_length_of_all_mem F _ (keyMem_reconcile_of_mem F db)
  · intro db F h
    exact nodup_reconcile F db h
  · intro db F
    exact reconcile_length_of_all_mem F _ (keyMem_reconcile_of_mem F db)
  · intro db F h
    exact nodup_reconcile F db h
  · intro db item
    constructor
    · intro hm
      exact ⟨upsert_length_of_mem db item hm, upsert_mem_spec db item hm⟩
    · intro hm
      exact upsert_of_not_mem db item hm

/-- Witness for C2: re-reconciling the example fetch page changes nothing —
the store stays at 2 rows with distinct keys and is bit-for-bit
identical. -/
theorem reconcile_idempotent_witness :
    (reconcile (reconcile commitDbExample fetchedCommitsExample)
        fetchedCommitsExample).length =
      (reconcile commitDbExample fetchedCommitsExample).length ∧
    (reconcile commitDbExample fetchedCommitsExample).length = 2 ∧
    (keysOf (reconcile commitDbExample fetchedCommitsExample)).Nodup ∧
    reconcile (reconcile commitDbExample fetchedCommitsExample)
        fetchedCommitsExample =
      reconcile commitDbExample fetchedCommitsExample := by
  have h := reconcile_idempotent_spec
  refine ⟨h.1 commitDbExample fetchedCommitsExample, by decide, ?_, by decide⟩
  exact h.2.1 commitDbExample fetchedCommitsExample (by decide)

theorem currentStreak_iff (days : List Nat) :
    ∀ t n, currentStreak days t = n ↔
      (n ≤ t + 1 ∧ (∀ i < n, (t - i) ∈ days) ∧ (n = t + 1 ∨ (t - n) ∉ days)) := by
  intro t
  induction t with
  | zero =>
    intro n
    by_cases h0 : 0 ∈ days
    · simp only [currentStreak, if_pos h0]
      constructor
      · rintro rfl
        refine ⟨by omega, ?_, Or.inl rfl⟩
        intro i hi
        have hi0 : i = 0 := by omega
        subst hi0
        simpa using h0
      · rintro ⟨h1, h2, h3⟩
        rcases h3 with h3 | h3
        · omega
        · exfalso
          apply h3
          simpa using h0
    · simp only [currentStreak, if_neg h0]
      constructor
      · rintro rfl
        exact ⟨by omega, by intro i hi; omega, Or.inr (by simpa using h0)⟩
      · rintro ⟨h1, h2, h3⟩
        by_contra hne
        have hn : 1 ≤ n := by omega
        have hmem := h2 0 (by omega)
        simp at hmem
        exact h0 hmem
  | succ t ih =>
    intro n
    by_cases hmem : t + 1 ∈ days
    · simp only [currentStreak, if_pos hmem]
      constructor
      · intro h
        obtain ⟨m, hm, rfl⟩ : ∃ m, currentStreak days t = m ∧ n = m + 1 :=
          ⟨_, rfl, h.symm⟩
        obtain ⟨hm1, hm2, hm3⟩ := (ih m).mp hm
        refine ⟨by omega, ?_, ?_⟩
        · intro i hi
          cases i with
          | zero => simpa using hmem
          | succ i =>
            have hstep := hm2 i (by omega)
            simpa [Nat.succ_sub_succ] using hstep
        · rcases hm3 with hm3 | hm3
          · left; omega
          · right
            simpa [Nat.succ_sub_succ] using hm3
      · rintro ⟨h1, h2, h3⟩
        have hn : 1 ≤ n := by
          by_contra hn
          have hn0 : n = 0 := by omega
          subst hn0
          rcases h3 with h3 | h3
          · omega
          · simp at h3
            exact h3 hmem
        obtain ⟨m, rfl⟩ : ∃ m, n = m + 1 := ⟨n - 1, by omega⟩
        have hms : currentStreak days t = m := by
          rw [ih m]
          refine ⟨by omega, ?_, ?_⟩
          · intro i hi
            have hstep := h2 (i + 1) (by omega)
            simpa [Nat.succ_sub_succ] using hstep
          · rcases h3 with h3 | h3
            · left; omega
            · right
              simpa [Nat.succ_sub_succ] using h3
        omega
    · simp only [currentStreak, if_neg hmem]
      constructor
      · rintro rfl
        refine ⟨by omega, by intro i hi; omega, Or.inr ?_⟩
        simpa using hmem
      · rintro ⟨h1, h2, h3⟩
        by_contra hne
        have hn : 1 ≤ n := by omega
        have hx := h2 0 (by omega)
        simp at hx
        exact hmem hx

/-- C4: the current streak equals the number of consecutive calendar days
ending today each having at least one commit — the walk backward from
today stops at the first day without a commit — and on the spec's example
(commits on 2026-02-08, 2026-02-09 and 2026-02-11, today = 2026-02-11) the
streak is exactly 1 because 2026-02-10 has none. -/
theorem currentStreak_spec :
    (∀ (days : List Nat) (t n : Nat),
      currentStreak days t = n ↔
        (n ≤ t + 1 ∧ (∀ i < n, (t - i) ∈ days) ∧ (n = t + 1 ∨ (t - n) ∉ days))) ∧
    currentStreak streakDaysExample (dayOrdinal 2026 2 11) = 1 ∧
    dayOrdinal 2026 2 9 = dayOrdinal 2026 2 8 + 1 ∧
    dayOrdinal 2026 2 11 = dayOrdinal 2026 2 8 + 3 ∧
    dayOrdinal 2026 2 10 ∉ streakDaysExample :=
  ⟨currentStreak_iff, by decide, by decide, by decide, by decide⟩

/-- Witness for C4: via the characterization, the streak of 1 on the
example pins down that the previous day (2026-02-10) has no commit. -/
theorem currentStreak_witness :
    currentStreak streakDaysExample (dayOrdinal 2026 2 11) = 1 ∧
    dayOrdinal 2026 2 11 - 1 ∉ streakDaysExample := by
  have h := currentStreak_spec
  refine ⟨h.2.1, ?_⟩
  have h3 := (h.1 streakDaysExample (dayOrdinal 2026 2 11) 1).mp h.2.1
  rcases h3.2.2 with h4 | h4
  · exact absurd h4 (by decide)
  · exact h4

theorem div_add_div_le (a b T : Nat) : a / T + b / T ≤ (a + b) / T := by
  rcases Nat.eq_zero_or_pos T with hT | hT
  · subst hT; simp
  · rw [Nat.le_div_iff_mul_le hT]
    have h1 := Nat.div_mul_le_self a T
    have h2 := Nat.div_mul_le_self b T
    have hd : (a / T + b / T) * T = a / T * T + b / T * T := by ring
    omega

theorem sum_div_le (l : List Nat) (T : Nat) :
    (l.map (fun a => a / T)).sum ≤ l.sum / T := by
  induction l with
  | nil => simp
  | cons x xs ih =>
    simp only [List.map_cons, List.sum_cons]
    calc x / T + (xs.map (fun a => a / T)).sum ≤ x / T + xs.sum / T := by omega
    _ ≤ (x + xs.sum) / T := div_add_div_le _ _ _

theorem sum_map_hundred (l : List LangCount) :
    (l.map (fun x => 100 * x.count)).sum = 100 * sumCounts l := by
  unfold sumCounts
  induction l with
  | nil => simp
  | cons x xs ih =>
    simp only [List.map_cons, List.sum_cons, ih]
    ring

theorem basePercents_sum_le (l : List LangCount) :
    sumSnd (basePercents l) ≤ 100 := by
  unfold sumSnd basePercents
  rw [List.map_map]
  show (l.map (fun x => 100 * x.count / sumCounts l)).sum ≤ 100
  have h1 : (l.map (fun x => 100 * x.count / sumCounts l)).sum ≤
      (l.map (fun x => 100 * x.count)).sum / sumCounts l := by
    have h := sum_div_le (l.map (fun x => 100 * x.count)) (sumCounts l)
    rw [List.map_map] at h
    exact h
  rw [sum_map_hundred] at h1
  have h2 : 100 * sumCounts l / sumCounts l ≤ 100 := by
    rcases Nat.eq_zero_or_pos (sumCounts l) with hT | hT
    · rw [hT]
      simp
    · rw [Nat.mul_div_cancel _ hT]
  exact le_trans h1 h2

theorem sumSnd_addAt (l : List (String × Nat)) (r : Nat) :
    ∀ i, i < l.length → sumSnd (addAt i r l) = sumSnd l + r := by
  induction l with
  | nil => intro i hi; simp at hi
  | cons p ps ih =>
    intro i hi
    cases i with
    | zero =>
      simp only [addAt, sumSnd, List.map_cons, List.sum_cons]
      omega
    | succ i =>
      simp only [addAt, sumSnd, List.map_cons, List.sum_cons]
      have hstep := ih i (by simpa using hi)
      unfold sumSnd at hstep
      omega

theorem maxCount_mem (l : List LangCount) (h : l ≠ []) :
    ∃ x ∈ l, x.count = maxCount l := by
  induction l with
  | nil => contradiction
  | cons x xs ih =>
    by_cases hxs : xs = []
    · subst hxs
      exact ⟨x, by simp, by simp [maxCount]⟩
    · obtain ⟨y, hy, hyc⟩ := ih hxs
      have hm : maxCount (x :: xs) = max x.count (maxCount xs) := by
        simp [maxCount]
      by_cases hc : maxCount xs ≤ x.count
      · exact ⟨x, by simp, by rw [hm]; omega⟩
      · refine ⟨y, by simp [hy], ?_⟩
        rw [hm]
        omega

theorem largestIdx_lt (l : List LangCount) (h : l ≠ []) :
    largestIdx l < l.length := by
  obtain ⟨x, hx, hxc⟩ := maxCount_mem l h
  unfold largestIdx
  apply List.findIdx_lt_length_of_exists
  exact ⟨x, hx, by simp [hxc]⟩

/-- C5: for every non-empty set of language buckets the recomputed
percentages are integers summing to exactly 100, the floored shares being
topped up by the rounding remainder at the largest bucket; recomputation
is a pure function of the buckets, so repeated recomputation over the same
commits yields the same percentages. -/
theorem langPercents_sum100 (l : List LangCount) (h : l ≠ []) :
    sumSnd (langPercents l) = 100 ∧
    ∀ l' : List LangCount, l' = l → langPercents l' = langPercents l := by
  constructor
  · unfold langPercents
    rw [sumSnd_addAt _ _ _ ?_]
    · have hle := basePercents_sum_le l
      omega
    · have hlen : (basePercents l).length = l.length := by
        simp [basePercents]
      rw [hlen]
      exact largestIdx_lt l h
  · intro l' hl
    rw [hl]

/-- Witness for C5: buckets TypeScript = 2, Python = 1 — floored shares 66
and 33 sum to 99, the remainder goes to TypeScript, total exactly 100. -/
theorem langPercents_witness :
    langCountsExample ≠ [] ∧
    sumSnd (langPercents langCountsExample) = 100 ∧
    langPercents langCountsExample = [("TypeScript", 67), ("Python", 33)] :=
  ⟨by decide, (langPercents_sum100 langCountsExample (by decide)).1, by decide⟩

theorem runRepos_characterization (fetch : Nat → Except SyncError (List String))
    (repos : List Nat)
    (h : ∀ r ∈ repos, nonFatalResult (fetch r) = true) :
    (runRepos fetch repos).status = .completed ∧
    (runRepos fetch repos).items = fetchedItems fetch repos ∧
    (runRepos fetch repos).syncedRepos = succeededRepos fetch repos ∧
    (runRepos fetch repos).repoErrors = recordedErrors fetch repos := by
  induction repos with
  | nil => exact ⟨rfl, rfl, rfl, rfl⟩
  | cons r rs ih =>
    obtain ⟨ih1, ih2, ih3, ih4⟩ :=
      ih (fun x hx => h x (List.mem_cons_of_mem r hx))
    cases hf : fetch r with
    | error e =>
      have hnf : e.isFatal = false := by
        have hr := h r (List.mem_cons_self r rs)
        rw [hf] at hr
        simpa [nonFatalResult] using hr
      have hrun : runRepos fetch (r :: rs) =
          ⟨(runRepos fetch rs).status, (runRepos fetch rs).items,
            (runRepos fetch rs).syncedRepos,
            (r, e) :: (runRepos fetch rs).repoErrors⟩ := by
        simp [runRepos, hf, hnf]
      rw [hrun]
      refine ⟨ih1, ?_, ?_, ?_⟩
      · rw [ih2]
        simp [fetchedItems, List.filterMap_cons, hf, Except.toOption]
      · rw [ih3]
        simp [succeededRepos, List.filter_cons, hf, Except.isOk, Except.toBool]
      · rw [ih4]
        simp [recordedErrors, List.filterMap_cons, hf]
    | ok its =>
      have hrun : runRepos fetch (r :: rs) =
          ⟨(runRepos fetch rs).status, its ++ (runRepos fetch rs).items,
            r :: (runRepos fetch rs).syncedRepos,
            (runRepos fetch rs).repoErrors⟩ := by
        simp [runRepos, hf]
      rw [hrun]
      refine ⟨ih1, ?_, ?_, ?_⟩
      · rw [ih2]
        simp [fetchedItems, List.filterMap_cons, hf, Except.toOption]
      · rw [ih3]
        simp [succeededRepos, List.filter_cons, hf, Except.isOk, Except.toBool]
      · rw [ih4]
        simp [recordedErrors, List.filterMap_cons, hf]

/-- C6: a per-repository failure does not fail the job — when every
repository's result is non-fatal (such as `UpstreamNotFound` on one of
them), the job completes, the failing repositories' errors are recorded,
exactly the succeeding repositories are synced, and the fetched items (and
hence `items_fetched`) come only from the repositories that succeeded. -/
theorem runRepos_partial_failure_spec
    (fetch : Nat → Except SyncError (List String)) (repos : List Nat)
    (h : ∀ r ∈ repos, nonFatalResult (fetch r) = true) :
    (runRepos fetch repos).status = .completed ∧
    (runRepos fetch repos).items = fetchedItems fetch repos ∧
    (runRepos fetch repos).syncedRepos = succeededRepos fetch repos ∧
    (runRepos fetch repos).repoErrors = recordedErrors fetch repos ∧
    (runRepos fetch repos).items.length = (fetchedItems fetch repos).length :=
  have hc := runRepos_characterization fetch repos h
  ⟨hc.1, hc.2.1, hc.2.2.1, hc.2.2.2, by rw [hc.2.1]⟩

/-- Witness for C6: repositories 1, 2, 3 where repository 2 returns
`UpstreamNotFound` — status `completed`, repositories 1 and 3 fully synced,
repository 2's error recorded, 3 items fetched from 1 and 3 only. -/
theorem runRepos_partial_failure_witness :
    (runRepos fetchExampleC6 [1, 2, 3]).status = .completed ∧
    (runRepos fetchExampleC6 [1, 2, 3]).items = ["a1", "a2", "c1"] ∧
    (runRepos fetchExampleC6 [1, 2, 3]).items.length = 3 ∧
    (runRepos fetchExampleC6 [1, 2, 3]).syncedRepos = [1, 3] ∧
    (runRepos fetchExampleC6 [1, 2, 3]).repoErrors = [(2, .upstreamNotFound)] := by
  have h := runRepos_partial_failure_spec fetchExampleC6 [1, 2, 3] (by decide)
  exact ⟨h.1, by decide, by decide, by decide, by decide⟩

/-- C7: `fetchPage` distinguishes its error classes — a 401 or 403 response
fails immediately with `AuthenticationError` after a single attempt and no
backoff, while persistent transient network/5xx failures are retried with
exponential backoff (1s, 2s, 4s, 8s) up to the cap of 5 attempts and only
then fail with `TransientFetchError`. -/
theorem fetchPage_error_classes (attempt : Nat → AttemptResult) :
    (∀ b, attempt 0 = .response 401 b →
      fetchPage attempt = (.error .authenticationError, 1, [])) ∧
    (∀ b, attempt 0 = .response 403 b →
      fetchPage attempt = (.error .authenticationError, 1, [])) ∧
    ((∀ i < 5, classifyAttempt (attempt i) = .transient) →
      fetchPage attempt =
        (.error .transientFetchError, 5, [1000, 2000, 4000, 8000])) := by
  refine ⟨?_, ?_, ?_⟩
  · intro b hb
    show retryGo attempt 5 0 [] = _
    rw [show (5 : Nat) = 4 + 1 from rfl, retryGo, hb]
    simp [classifyAttempt]
  · intro b hb
    show retryGo attempt 5 0 [] = _
    rw [show (5 : Nat) = 4 + 1 from rfl, retryGo, hb]
    simp [classifyAttempt]
  · intro h
    have h0 := h 0 (by omega)
    have h1 := h 1 (by omega)
    have h2 := h 2 (by omega)
    have h3 := h 3 (by omega)
    have h4 := h 4 (by omega)
    show retryGo attempt 5 0 [] = _
    rw [show (5 : Nat) = 4 + 1 from rfl, retryGo, h0]
    rw [show (4 : Nat) = 3 + 1 from rfl, retryGo, h1]
    rw [show (3 : Nat) = 2 + 1 from rfl, retryGo, h2]
    rw [show (2 : Nat) = 1 + 1 from rfl, retryGo, h3]
    rw [show (1 : Nat) = 0 + 1 from rfl, retryGo, h4]
    simp [backoffDelay]

/-- Witness for C7: an upstream answering 401 fails after one attempt with
no retry; an upstream whose connection always fails exhausts the 5-attempt
cap with the exponential backoff schedule. -/
theorem fetchPage_error_classes_witness :
    fetchPage attemptAuthExample = (.error .authenticationError, 1, []) ∧
    fetchPage attemptTransientExample =
      (.error .transientFetchError, 5, [1000, 2000, 4000, 8000]) := by
  have ha := (fetchPage_error_classes attemptAuthExample).1 [] rfl
  have ht := (fetchPage_error_classes attemptTransientExample).2.2
    (by intro i hi; rfl)
  exact ⟨ha, ht⟩

/-- C8: classification failure never fails a sync job — two consecutive
malformed responses for a commit make `classify` return the sentinel
unclassified result (empty tag set, `unclassified` category), the commit is
still persisted in the classification pass's output, and the job still
reaches `completed`. -/
theorem classify_degradation_spec
    (fetch : Nat → Except SyncError (List String)) (repos : List Nat)
    (svc : String → Nat → ClassifyResp) (c : String)
    (hnf : ∀ r ∈ repos, nonFatalResult (fetch r) = true)
    (hc : c ∈ (runRepos fetch repos).items)
    (hm0 : svc c 0 = .malformed) (hm1 : svc c 1 = .malformed) :
    classify (svc c) = unclassifiedResult ∧
    (runFullJob fetch repos svc).1.status = .completed ∧
    (c, unclassifiedResult) ∈ (runFullJob fetch repos svc).2 := by
  have hcl : classify (svc c) = unclassifiedResult := by
    simp [classify, hm0, hm1]
  have hst := (runRepos_characterization fetch repos hnf).1
  have hjob : runFullJob fetch repos svc =
      (runRepos fetch repos, classifyPass svc (runRepos fetch repos).items) := by
    simp only [runFullJob]
    rw [hst]
  refine ⟨hcl, ?_, ?_⟩
  · rw [hjob]
    exact hst
  · rw [hjob]
    have hmem := List.mem_map_of_mem (fun c => (c, classify (svc c))) hc
    simpa [classifyPass, hcl] using hmem

/-- Witness for C8: one commit, a service returning malformed output twice —
the commit persists with the sentinel classification and the job
completes. -/
theorem classify_degradation_witness :
    classify (svcExampleC8 "deadbeef") = unclassifiedResult ∧
    (runFullJob fetchExampleC8 [1] svcExampleC8).1.status = .completed ∧
    ("deadbeef", unclassifiedResult) ∈ (runFullJob fetchExampleC8 [1] svcExampleC8).2 :=
  classify_degradation_spec fetchExampleC8 [1] svcExampleC8 "deadbeef"
    (by decide) (by decide) rfl rfl

end GitDash
